import Mathlib

/-!
# DashNet: verification of the metrics/state engine

Shallow embedding of the DashNet terminal dashboard (src/main.rs and
src/net_monitor.rs).  External collaborators (nmcli, /proc/net/dev, the ip
command, notify-send) are modelled as parameters supplying their observable
output; `f64` arithmetic on byte deltas and sequence counters is modelled
exactly over `ℚ` (all operations involved — additions of small integers,
multiplication by 8 and division by the constant 2^20 — are exact in `f64`
for the magnitudes the program handles).
-/

namespace DashNet

/-- Byte counters of one interface, as parsed from `/proc/net/dev`
(`net_monitor.rs`, `NetStats`). -/
structure NetStats where
  rx : Nat
  tx : Nat
deriving DecidableEq, Repr

/-- A counter-source snapshot: interface name → counters (the `HashMap`
returned by `get_net_data`; keys are unique). -/
abbrev Snapshot := List (String × NetStats)

/-- The three interaction modes of `SelectionMode` in main.rs. -/
inductive SelectionMode
  | VPN
  | WiFi
  | PasswordInput
deriving DecidableEq, Repr

/-- The ratatui colors the program uses. -/
inductive Color
  | Yellow
  | Green
  | Cyan
deriving DecidableEq, Repr

/-- Per-interface live data (`InterfaceData` in main.rs). -/
structure InterfaceData where
  history : List (ℚ × ℚ)
  current_speed : ℚ
  color : Color
deriving DecidableEq, Repr

/-- `l.isPrefixOf` over explicit lists, used to model Rust's
`str::starts_with`. -/
def listStarts {α : Type} [DecidableEq α] : List α → List α → Bool
  | [], _ => true
  | _ :: _, [] => false
  | a :: as, b :: bs => a = b && listStarts as bs

/-- Substring occurrence test over explicit char lists, modelling Rust's
`str::contains`. -/
def listHasSub {α : Type} [DecidableEq α] (needle : List α) : List α → Bool
  | [] => needle.isEmpty
  | b :: bs => listStarts needle (b :: bs) || listHasSub needle bs

/-- `s.starts_with(pre)` on strings. -/
def strStarts (s pre : String) : Bool := listStarts pre.toList s.toList

/-- `s.contains(pat)` on strings. -/
def strHasSub (s pat : String) : Bool := listHasSub pat.toList s.toList

/-- The interfaces `update_metrics` skips entirely:
`name == "lo" || name.contains("docker") || name.contains("br-")`. -/
def filteredName (name : String) : Bool :=
  name = "lo" || strHasSub name "docker" || strHasSub name "br-"

/-- Color chosen at entity creation in `update_metrics`:
`'w'` → Yellow, `'e'` → Green, else Cyan. -/
def colorOf (name : String) : Color :=
  if strStarts name "w" then .Yellow
  else if strStarts name "e" then .Green
  else .Cyan

/-- The throughput formula of `update_metrics` line 122:
`((rx.saturating_sub(old_rx)) as f64 * 8.0) / (1024.0 * 1024.0)`.
Note the Nat subtraction is saturating, exactly like `saturating_sub`. -/
def speedOf (oldRx newRx : Nat) : ℚ :=
  ((newRx - oldRx : Nat) : ℚ) * 8 / (1024 * 1024)

/-- Association-list map with unique keys, modelling Rust's `HashMap`
lookups. -/
def alookup {β : Type} : List (String × β) → String → Option β
  | [], _ => none
  | p :: rest, k => if p.1 = k then some p.2 else alookup rest k

/-- The tracked-interface map `App.interfaces`. -/
abbrev IfaceMap := List (String × InterfaceData)

/-- `HashMap::insert`-like update on the association list (replace the
binding if the key is present, append otherwise). -/
def insertIface : IfaceMap → String → InterfaceData → IfaceMap
  | [], k, v => [(k, v)]
  | p :: rest, k, v => if p.1 = k then (k, v) :: rest else p :: insertIface rest k v

/-- The entry inserted by `or_insert` when an interface is first tracked:
empty history, speed 0, color classified from the name. -/
def freshIface (name : String) : InterfaceData :=
  { history := [], current_speed := 0, color := colorOf name }

/-- One history push of `update_metrics`: set `current_speed`, append
`(counter, speed)` and drop the head if the length exceeds 300. -/
def pushEntry (c s : ℚ) (cur : InterfaceData) : InterfaceData :=
  let h1 := cur.history ++ [(c, s)]
  { history := if 300 < h1.length then h1.drop 1 else h1
    current_speed := s
    color := cur.color }

/-- The body of the `for (name, stats) in current_stats` loop of
`update_metrics` for a single interface. -/
def updateOne (c : ℚ) (last : Snapshot) (m : IfaceMap) (name : String)
    (stats : NetStats) : IfaceMap :=
  if filteredName name then m
  else
    match alookup last name with
    | none => m
    | some old =>
        insertIface m name
          (pushEntry c (speedOf old.rx stats.rx) ((alookup m name).getD (freshIface name)))

/-- Connection transition events (the `notify-send` calls of
`update_active_states`). -/
inductive ConnEvent
  | disconnected (name : String)
  | connected (name : String)
deriving DecidableEq, Repr

/-- The diff of `update_active_states` lines 107–112: one `Disconnected`
notification per previously-active tunnel missing from the new set, then one
`Connected` notification per newly-active tunnel, in loop order. -/
def connectionEvents (prev new : List String) : List ConnEvent :=
  (prev.filter (fun v => !(new.contains v))).map .disconnected
    ++ (new.filter (fun v => !(prev.contains v))).map .connected

/-- The whole mutable state of the program (`App` in main.rs).
`cursor` is `list_state.selected()`. -/
structure App where
  vpn_names : List String
  wifi_ssids : List String
  active_vpns : List String
  previous_active_vpns : List String
  current_ssid : String
  previous_ssid : String
  selection_mode : SelectionMode
  previous_mode : SelectionMode
  password_input : List Char
  cursor : Option Nat
  interfaces : IfaceMap
  last_stats : Snapshot
  counter : ℚ
  graph_index : Nat
deriving DecidableEq, Repr

/-- `update_active_states`, with the nmcli outputs (new active-connection
name list and new SSID) supplied as parameters; returns the new state and
the notification events in emission order. -/
def update_active_states (a : App) (newActive : List String) (newSsid : String) :
    App × List ConnEvent :=
  ({ a with
      previous_active_vpns := a.active_vpns
      active_vpns := newActive
      current_ssid := newSsid },
   connectionEvents a.active_vpns newActive)

/-- `update_metrics`: refresh active states, bump the sequence counter,
push one point per interface present both in the new snapshot and in
`last_stats` (skipping filtered names), replace `last_stats`, and retain
only interfaces present in the new snapshot. -/
def update_metrics (a : App) (newActive : List String) (newSsid : String)
    (current : Snapshot) : App × List ConnEvent :=
  let s := update_active_states a newActive newSsid
  let a1 := s.1
  let c := a1.counter + 1
  let m1 := current.foldl (fun acc p => updateOne c a1.last_stats acc p.1 p.2) a1.interfaces
  let m2 := m1.filter (fun p => (alookup current p.1).isSome)
  ({ a1 with counter := c, interfaces := m2, last_stats := current }, s.2)

/-- `App::new`: initial state (mode VPN, cursor `Some(0)`, empty histories,
baseline `last_stats`), followed by the initial `update_active_states`. -/
def initApp (vpns wifis : List String) (s0 : Snapshot) (active0 : List String)
    (ssid0 : String) : App :=
  (update_active_states
    { vpn_names := vpns
      wifi_ssids := wifis
      active_vpns := []
      previous_active_vpns := []
      current_ssid := ""
      previous_ssid := ""
      selection_mode := .VPN
      previous_mode := .VPN
      password_input := []
      cursor := some 0
      interfaces := []
      last_stats := s0
      counter := 0
      graph_index := 0 } active0 ssid0).1

/-- The external observations consumed by one tick. -/
structure TickInput where
  active : List String
  ssid : String
  snap : Snapshot
deriving Repr

/-- Iterate `update_metrics` over a sequence of tick observations. -/
def runTicks (a : App) (ins : List TickInput) : App :=
  ins.foldl (fun acc i => (update_metrics acc i.active i.ssid i.snap).1) a

/-! ## The input handler of the main loop -/

/-- The key codes the main loop distinguishes; `other` stands for every key
hitting a `_ => {}` arm in both modes. -/
inductive KeyCode
  | enter
  | esc
  | backspace
  | tab
  | down
  | up
  | char (c : Char)
  | other
deriving DecidableEq, Repr

/-- External-process invocations triggered by input handling, in spawn
order.  The two connect variants carry the secret written to the child's
stdin. -/
inductive Effect
  | connectVPN (name : String) (secret : List Char)
  | connectWifi (name : String) (secret : List Char)
  | disconnectVPN (name : String)
  | openEditor
deriving DecidableEq, Repr

/-- Outcome of handling one key event: continue with a new state and spawned
effects, leave the loop normally (`break` on `q`), or propagate an
`io::Error` out of `main` (the `?` on the connect `spawn`). -/
inductive StepResult
  | cont (a : App) (effects : List Effect)
  | quit (a : App)
  | fatal
deriving DecidableEq, Repr

/-- External observations consumed while handling a key: the refreshed name
lists (`r`) and whether spawning the connect command succeeds (Enter in
password mode). -/
structure ExternalInputs where
  vpnList : List String
  wifiList : List String
  spawnOk : Bool
deriving DecidableEq, Repr

/-- Cursor move for `Down`/`j`: wrap to 0 past the end; no-op on an empty
list; a missing selection becomes 0. -/
def navDown (len : Nat) (cur : Option Nat) : Option Nat :=
  if 0 < len then
    some (match cur with
      | some i => if len - 1 ≤ i then 0 else i + 1
      | none => 0)
  else cur

/-- Cursor move for `Up`/`k`: wrap to the last index from 0; no-op on an
empty list; a missing selection becomes 0. -/
def navUp (len : Nat) (cur : Option Nat) : Option Nat :=
  if 0 < len then
    some (match cur with
      | some i => if i = 0 then len - 1 else i - 1
      | none => 0)
  else cur

/-- Key handling in the two browse modes (the `else` branch of the event
match in `main`). -/
def handleBrowse (a : App) (k : KeyCode) (ext : ExternalInputs) : StepResult :=
  let len := if a.selection_mode = .VPN then a.vpn_names.length else a.wifi_ssids.length
  match k with
  | .char c =>
    if c = 'q' then .quit a
    else if c = 'j' then .cont { a with cursor := navDown len a.cursor } []
    else if c = 'k' then .cont { a with cursor := navUp len a.cursor } []
    else if c = 'x' then
      if a.selection_mode = .VPN then
        match a.cursor with
        | some idx =>
          match a.vpn_names.get? idx with
          | some name => .cont a [.disconnectVPN name]
          | none => .cont a []
        | none => .cont a []
      else .cont a []
    else if c = 'r' then
      .cont { a with vpn_names := ext.vpnList, wifi_ssids := ext.wifiList } []
    else if c = 'g' then .cont { a with graph_index := a.graph_index + 1 } []
    else if c = 'a' then .cont a [.openEditor]
    else .cont a []
  | .tab =>
    .cont { a with
        selection_mode := if a.selection_mode = .VPN then .WiFi else .VPN
        cursor := some 0 } []
  | .down => .cont { a with cursor := navDown len a.cursor } []
  | .up => .cont { a with cursor := navUp len a.cursor } []
  | .enter =>
    if 0 < len then
      .cont { a with
          previous_mode := a.selection_mode
          selection_mode := .PasswordInput
          password_input := [] } []
    else .cont a []
  | _ => .cont a []

/-- The target name resolved on commit:
`list.get(selected().unwrap_or(0))` in the list of the originating mode. -/
def resolveTarget (a : App) : Option String :=
  let idx := a.cursor.getD 0
  if a.previous_mode = .VPN then a.vpn_names.get? idx else a.wifi_ssids.get? idx

/-- Key handling in `PasswordInput` mode.  On Enter with a resolvable
target, the connect command is spawned: on spawn failure the `?` aborts
`main` (`fatal`); on success the secret is written to the child and the
mode returns to the originating one.  The buffer is not touched on exit. -/
def handlePassword (a : App) (k : KeyCode) (ext : ExternalInputs) : StepResult :=
  match k with
  | .enter =>
    match resolveTarget a with
    | some name =>
      if ext.spawnOk then
        .cont { a with selection_mode := a.previous_mode }
          [if a.previous_mode = .VPN then .connectVPN name a.password_input
           else .connectWifi name a.password_input]
      else .fatal
    | none => .cont { a with selection_mode := a.previous_mode } []
  | .esc => .cont { a with selection_mode := a.previous_mode } []
  | .backspace => .cont { a with password_input := a.password_input.dropLast } []
  | .char c => .cont { a with password_input := a.password_input ++ [c] } []
  | _ => .cont a []

/-- The full per-key dispatch of the main loop. -/
def handleKey (a : App) (k : KeyCode) (ext : ExternalInputs) : StepResult :=
  if a.selection_mode = .PasswordInput then handlePassword a k ext
  else handleBrowse a k ext

/-! ## The renderer (`ui` and `render_braille_graph`), at the level of the
frame description: widget contents, graph choice and graph bounds. -/

/-- The graph area: either the waiting placeholder or a braille canvas with
its data, vertical bound `maxVal` and x-window `[xmin, xmax]`. -/
inductive GraphView
  | placeholder
  | braille (name : String) (speed : ℚ) (data : List (ℚ × ℚ)) (color : Color)
      (maxVal : ℚ) (xmin xmax : ℚ)
deriving DecidableEq, Repr

/-- One terminal frame as the renderer describes it: list widget title and
items (name and active-highlight flag), active-interface lines, graph area,
status bar, and the optional password overlay (number of stars). -/
structure Frame where
  listTitle : String
  listItems : List (String × Bool)
  ifaceLines : List (String × String × Color)
  graph : GraphView
  statusBar : String
  overlayStars : Option Nat
deriving DecidableEq, Repr

/-- The vertical graph bound of `render_braille_graph`:
`data.iter().map(|(_, y)| y).fold(1.0, f64::max).max(1.0)`. -/
def graphMax (data : List (ℚ × ℚ)) : ℚ :=
  max (data.foldl (fun m p => max m p.2) 1) 1

/-- Tunnel-lane name test used in `ui`: `tun`/`wg`/`ppp` prefixes. -/
def tunnelName (n : String) : Bool :=
  strStarts n "tun" || strStarts n "wg" || strStarts n "ppp"

/-- Physical/wireless-lane name test used in `ui`: `e`/`w` prefixes. -/
def physName (n : String) : Bool := strStarts n "e" || strStarts n "w"

/-- Color of an active-interface line in `ui`. -/
def ipColor (n : String) : Color :=
  if strStarts n "tun" || strStarts n "wg" then .Cyan else .Green

/-- Stable insertion of one entry into a name-sorted interface list. -/
def insertByName (p : String × InterfaceData) :
    List (String × InterfaceData) → List (String × InterfaceData)
  | [] => [p]
  | q :: rest => if p.1 < q.1 then p :: q :: rest else q :: insertByName p rest

/-- Stable sort by interface name, modelling `sort_by_key` on the filtered
lane lists. -/
def sortByName : List (String × InterfaceData) → List (String × InterfaceData)
  | [] => []
  | p :: rest => insertByName p (sortByName rest)

/-- The status-bar text. -/
def statusText : String :=
  " [TAB] Mode | [G] Graph | [A] Add VPN | [ENTER] Connect | [X] Disc | [Q] Quit "

/-- The interfaces with an active address, as filtered in `ui`. -/
def withIp (a : App) (activeIps : List (String × String)) : IfaceMap :=
  a.interfaces.filter (fun p => activeIps.any (fun q => q.1 = p.1))

/-- The sorted physical/wireless lane list of `ui`. -/
def physActive (a : App) (activeIps : List (String × String)) : IfaceMap :=
  sortByName ((withIp a activeIps).filter (fun p => physName p.1))

/-- The sorted tunnel lane list of `ui`. -/
def tunnelActive (a : App) (activeIps : List (String × String)) : IfaceMap :=
  sortByName ((withIp a activeIps).filter (fun p => tunnelName p.1))

/-- The tunnel entry selected round-robin by `graph_index`:
`tunnel_active[(graph_index / 2) % tunnel_active.len()]`. -/
def tunnelPick (a : App) (activeIps : List (String × String)) : String × InterfaceData :=
  (tunnelActive a activeIps).getD
    ((a.graph_index / 2) % (tunnelActive a activeIps).length) ("", freshIface "")

/-- The graph-area selection of `ui`: on odd `graph_index` cycle through the
tunnel lanes; otherwise the first physical lane; placeholder if none. -/
def graphChoice (a : App) (activeIps : List (String × String)) : GraphView :=
  if a.graph_index % 2 ≠ 0 ∧ tunnelActive a activeIps ≠ [] then
    GraphView.braille (tunnelPick a activeIps).1 (tunnelPick a activeIps).2.current_speed
      (tunnelPick a activeIps).2.history .Cyan (graphMax (tunnelPick a activeIps).2.history)
      (a.counter - 300) a.counter
  else
    match physActive a activeIps with
    | p :: _ =>
      GraphView.braille p.1 p.2.current_speed p.2.history p.2.color (graphMax p.2.history)
        (a.counter - 300) a.counter
    | [] => GraphView.placeholder

/-- `ui`, with the output of `get_active_ips` (the external `ip` command
read during rendering) supplied as a parameter. -/
def ui (a : App) (activeIps : List (String × String)) : Frame :=
  let titleItems : String × List (String × Bool) :=
    match a.selection_mode with
    | .WiFi => (" [ WIFI SCAN ] ", a.wifi_ssids.map (fun s => (s, s = a.current_ssid)))
    | _ => (" [ VPN LIST ] ", a.vpn_names.map (fun s => (s, a.active_vpns.contains s)))
  { listTitle := titleItems.1
    listItems := titleItems.2
    ifaceLines := activeIps.map (fun p => (p.1, p.2, ipColor p.1))
    graph := graphChoice a activeIps
    statusBar := statusText
    overlayStars := if a.selection_mode = .PasswordInput then some a.password_input.length else none }

/-! ## Invariants and spec-side quantities -/

/-- The ascending run `[a, a+1, …, a+(n-1)]` of rational sequence numbers. -/
def ascRun (a : ℚ) (n : Nat) : List ℚ := (List.range n).map (fun (j : Nat) => a + (j : ℚ))

/-- Invariant of a tracked entry at sequence counter `c`: non-empty history
of at most 300 points whose sequence numbers are the consecutive run ending
at `c`, last point `(c, current_speed)`, and all throughputs non-negative. -/
def entryInv (c : ℚ) (d : InterfaceData) : Prop :=
  0 < d.history.length ∧ d.history.length ≤ 300 ∧
  d.history.map Prod.fst = ascRun (c + 1 - d.history.length) d.history.length ∧
  d.history.getLast? = some (c, d.current_speed) ∧
  ∀ p ∈ d.history, 0 ≤ p.2

/-- Invariant of the tracked map: unique keys, and every tracked interface
is unfiltered, still present in `last`, and satisfies `entryInv`. -/
def mapInv (c : ℚ) (last : Snapshot) (m : IfaceMap) : Prop :=
  (m.map Prod.fst).Nodup ∧
  ∀ name d, alookup m name = some d →
    filteredName name = false ∧ (alookup last name).isSome ∧ entryInv c d

/-- The engine-state invariant. -/
def appInv (a : App) : Prop := mapInv a.counter a.last_stats a.interfaces

/-- The history points lying inside the visible horizontal window
`[c - 300, c]` of the graph. -/
def windowPoints (c : ℚ) (data : List (ℚ × ℚ)) : List (ℚ × ℚ) :=
  data.filter (fun p => decide (c - 300 ≤ p.1) && decide (p.1 ≤ c))

/-- Maximum of a list of non-negative rationals (0 when empty). -/
def listMaxQ (l : List ℚ) : ℚ := l.foldr max 0

/-- The spec's autoscaling bound: `max(1, max over the visible window of
throughput)`. -/
def specBound (c : ℚ) (data : List (ℚ × ℚ)) : ℚ :=
  max 1 (listMaxQ ((windowPoints c data).map Prod.snd))

/-! ## Concrete states used by counterexamples and witnesses -/

/-- External inputs with all spawns succeeding and empty refreshed lists. -/
def extOk : ExternalInputs := ⟨[], [], true⟩

/-- External inputs whose connect spawn fails. -/
def extFail : ExternalInputs := ⟨[], [], false⟩

/-- Baseline app for the throughput example: `eth0` seen at `rx = 1000`. -/
def appEth : App := initApp [] [] [("eth0", ⟨1000, 0⟩)] [] ""

/-- App freshly started with VPN list `["home"]`. -/
def appHome : App := initApp ["home"] [] [] [] ""

/-- `appHome` after Enter: secret entry targeting `home` from VPN mode. -/
def appHomePw : App := { appHome with selection_mode := .PasswordInput, previous_mode := .VPN }

/-- `appHomePw` after typing `a`. -/
def appHomePwA : App := { appHomePw with password_input := ['a'] }

/-- App freshly started with VPN list `["a", "b"]`. -/
def appAB : App := initApp ["a", "b"] [] [] [] ""

/-- `appAB` after CursorDown: cursor on index 1. -/
def appAB1 : App := { appAB with cursor := some 1 }

/-- External inputs whose refreshed VPN list has shrunk to `["a"]`. -/
def extShrink : ExternalInputs := ⟨["a"], [], true⟩

/-- `appAB1` after Refresh with `extShrink`: the cursor is still 1 but the
list now has length 1. -/
def appAB1R : App := { appAB1 with vpn_names := ["a"], wifi_ssids := [] }

/-- A state with one tracked interface, as produced by one tick of
`update_metrics` from `appEth` with an unchanged counter. -/
def appTick : App := (update_metrics appEth [] "" [("eth0", ⟨1000, 0⟩)]).1

/-- One quiet tick observation for `eth0`. -/
def tickEth : TickInput := ⟨[], "", [("eth0", ⟨1000, 0⟩)]⟩

/-- The tracked entry after one quiet tick: a single zero-throughput point. -/
def entryEth : InterfaceData := { history := [(1, 0)], current_speed := 0, color := .Green }

/-! ## Lemmas about the association-list map -/

theorem alookup_insertIface (m : IfaceMap) (k k' : String) (v : InterfaceData) :
    alookup (insertIface m k v) k' = if k = k' then some v else alookup m k' := by
  induction m with
  | nil => simp [insertIface, alookup]
  | cons p rest ih =>
    rw [insertIface]
    by_cases h : p.1 = k
    · subst h
      rw [if_pos rfl]
      by_cases h' : p.1 = k' <;> simp [alookup, h']
    · rw [if_neg h, alookup, alookup, ih]
      by_cases h' : p.1 = k'
      · have hk : ¬ k = k' := fun e => h (by rw [h', e])
        rw [if_pos h', if_pos h', if_neg hk]
      · rw [if_neg h', if_neg h']

theorem alookup_mem {β : Type} {m : List (String × β)} {k : String} {v : β}
    (h : alookup m k = some v) : (k, v) ∈ m := by
  induction m with
  | nil => simp [alookup] at h
  | cons p rest ih =>
    by_cases hp : p.1 = k
    · rw [alookup, if_pos hp] at h
      have : p = (k, v) := by
        cases p
        cases h
        cases hp
        rfl
      exact this ▸ List.mem_cons_self _ _
    · rw [alookup, if_neg hp] at h
      exact List.mem_cons_of_mem _ (ih h)

theorem alookup_eq_of_mem {β : Type} {m : List (String × β)} {k : String} {v : β}
    (hnd : (m.map Prod.fst).Nodup) (h : (k, v) ∈ m) : alookup m k = some v := by
  induction m with
  | nil => simp at h
  | cons p rest ih =>
    rw [List.map_cons] at hnd
    rcases List.mem_cons.mp h with h | h
    · rw [← h, alookup, if_pos rfl]
    · have hk : k ∈ rest.map Prod.fst := List.mem_map_of_mem Prod.fst h
      have hp : p.1 ≠ k := fun e => (List.nodup_cons.mp hnd).1 (e ▸ hk)
      rw [alookup, if_neg hp]
      exact ih (List.nodup_cons.mp hnd).2 h

theorem alookup_filterKeys (m : IfaceMap) (pred : String → Bool) (k : String) :
    alookup (m.filter fun p => pred p.1) k = if pred k then alookup m k else none := by
  induction m with
  | nil => simp [alookup]
  | cons p rest ih =>
    by_cases hp : p.1 = k
    · subst hp
      by_cases hq : pred p.1 <;> simp [List.filter_cons, hq, alookup, ih]
    · by_cases hq : pred p.1 <;> simp [List.filter_cons, hq, alookup, hp, ih]

theorem updateOne_filtered {name : String} (c : ℚ) (last : Snapshot) (m : IfaceMap)
    (stats : NetStats) (h : filteredName name = true) :
    updateOne c last m name stats = m := by
  simp [updateOne, h]

theorem updateOne_nolast {name : String} (c : ℚ) (last : Snapshot) (m : IfaceMap)
    (stats : NetStats) (h : alookup last name = none) :
    updateOne c last m name stats = m := by
  simp only [updateOne, h]
  split <;> rfl

theorem alookup_updateOne_ne {name name' : String} (c : ℚ) (last : Snapshot) (m : IfaceMap)
    (stats : NetStats) (h : name ≠ name') :
    alookup (updateOne c last m name stats) name' = alookup m name' := by
  simp only [updateOne]
  split
  · rfl
  · split
    · rfl
    · rw [alookup_insertIface]
      simp [h]

theorem alookup_updateOne_push {name : String} {old : NetStats} (c : ℚ) (last : Snapshot)
    (m : IfaceMap) (stats : NetStats) (h1 : filteredName name = false)
    (h2 : alookup last name = some old) :
    alookup (updateOne c last m name stats) name =
      some (pushEntry c (speedOf old.rx stats.rx) ((alookup m name).getD (freshIface name))) := by
  simp [updateOne, h1, h2, alookup_insertIface]

theorem alookup_fold_not_mem {name : String} (c : ℚ) (last : Snapshot) (current : Snapshot)
    (m : IfaceMap) (h : name ∉ current.map Prod.fst) :
    alookup (current.foldl (fun acc p => updateOne c last acc p.1 p.2) m) name
      = alookup m name := by
  induction current generalizing m with
  | nil => rfl
  | cons p rest ih =>
    simp only [List.map_cons, List.mem_cons, not_or] at h
    rw [List.foldl_cons, ih _ h.2, alookup_updateOne_ne _ _ _ _ (fun e => h.1 e.symm)]

theorem alookup_fold_skip {name : String} (c : ℚ) (last : Snapshot) (current : Snapshot)
    (m : IfaceMap) (h : filteredName name = true ∨ alookup last name = none) :
    alookup (current.foldl (fun acc p => updateOne c last acc p.1 p.2) m) name
      = alookup m name := by
  induction current generalizing m with
  | nil => rfl
  | cons p rest ih =>
    rw [List.foldl_cons, ih]
    by_cases hp : p.1 = name
    · subst hp
      rcases h with h | h
      · rw [updateOne_filtered _ _ _ _ h]
      · rw [updateOne_nolast _ _ _ _ h]
    · exact alookup_updateOne_ne _ _ _ _ hp

theorem alookup_fold_push {name : String} {stats old : NetStats} (c : ℚ) (last : Snapshot)
    (current : Snapshot) (m : IfaceMap) (hnd : (current.map Prod.fst).Nodup)
    (hmem : (name, stats) ∈ current) (h1 : filteredName name = false)
    (h2 : alookup last name = some old) :
    alookup (current.foldl (fun acc p => updateOne c last acc p.1 p.2) m) name
      = some (pushEntry c (speedOf old.rx stats.rx)
          ((alookup m name).getD (freshIface name))) := by
  induction current generalizing m with
  | nil => simp at hmem
  | cons p rest ih =>
    rw [List.map_cons] at hnd
    have hnd' := List.nodup_cons.mp hnd
    rcases List.mem_cons.mp hmem with rfl | hmem
    · rw [List.foldl_cons]
      rw [alookup_fold_not_mem _ _ _ _ hnd'.1, alookup_updateOne_push _ _ _ _ h1 h2]
    · have hp : p.1 ≠ name := fun e => hnd'.1 (e ▸ List.mem_map_of_mem Prod.fst hmem)
      rw [List.foldl_cons, ih _ hnd'.2 hmem]
      rw [alookup_updateOne_ne _ _ _ _ hp]

theorem mem_keys_insertIface {m : IfaceMap} {k k' : String} {v : InterfaceData}
    (h : k' ∈ (insertIface m k v).map Prod.fst) : k' = k ∨ k' ∈ m.map Prod.fst := by
  induction m with
  | nil => simpa [insertIface] using h
  | cons p rest ih =>
    rw [insertIface] at h
    by_cases hp : p.1 = k
    · rw [if_pos hp, List.map_cons] at h
      rcases List.mem_cons.mp h with h | h
      · exact Or.inl h
      · exact Or.inr (List.mem_cons_of_mem _ h)
    · rw [if_neg hp, List.map_cons] at h
      rcases List.mem_cons.mp h with h | h
      · exact Or.inr (h ▸ List.mem_cons_self _ _)
      · rcases ih h with h | h
        · exact Or.inl h
        · exact Or.inr (List.mem_cons_of_mem _ h)

theorem keys_insertIface_nodup {m : IfaceMap} (k : String) (v : InterfaceData)
    (hnd : (m.map Prod.fst).Nodup) : ((insertIface m k v).map Prod.fst).Nodup := by
  induction m with
  | nil => simp [insertIface]
  | cons p rest ih =>
    rw [List.map_cons] at hnd
    have hnd' := List.nodup_cons.mp hnd
    rw [insertIface]
    by_cases hp : p.1 = k
    · rw [if_pos hp, List.map_cons]
      exact List.nodup_cons.mpr ⟨hp ▸ hnd'.1, hnd'.2⟩
    · rw [if_neg hp, List.map_cons]
      refine List.nodup_cons.mpr ⟨?_, ih hnd'.2⟩
      intro hmem
      rcases mem_keys_insertIface hmem with h | h
      · exact hp h
      · exact hnd'.1 h

theorem keys_updateOne_nodup {m : IfaceMap} (c : ℚ) (last : Snapshot) (name : String)
    (stats : NetStats) (hnd : (m.map Prod.fst).Nodup) :
    ((updateOne c last m name stats).map Prod.fst).Nodup := by
  rw [updateOne]
  split
  · exact hnd
  · split
    · exact hnd
    · exact keys_insertIface_nodup _ _ hnd

theorem keys_fold_nodup {m : IfaceMap} (c : ℚ) (last : Snapshot) (current : Snapshot)
    (hnd : (m.map Prod.fst).Nodup) :
    ((current.foldl (fun acc p => updateOne c last acc p.1 p.2) m).map Prod.fst).Nodup := by
  induction current generalizing m with
  | nil => exact hnd
  | cons p rest ih => exact ih (keys_updateOne_nodup _ _ _ _ hnd)

theorem keys_filter_nodup {m : IfaceMap} (pred : String × InterfaceData → Bool)
    (hnd : (m.map Prod.fst).Nodup) : ((m.filter pred).map Prod.fst).Nodup :=
  hnd.sublist (List.Sublist.map Prod.fst (List.filter_sublist m))

/-! ## Lemmas about ascending sequence-number runs -/

theorem ascRun_length (a : ℚ) (n : Nat) : (ascRun a n).length = n := by
  simp [ascRun]

theorem ascRun_succ (a : ℚ) (n : Nat) : ascRun a (n + 1) = ascRun a n ++ [a + n] := by
  simp [ascRun, List.range_succ]

theorem ascRun_drop_one (a : ℚ) (n : Nat) : (ascRun a (n + 1)).drop 1 = ascRun (a + 1) n := by
  simp only [ascRun, List.range_succ_eq_map, List.map_cons, List.map_map, List.drop_succ_cons,
    List.drop_zero]
  refine List.map_congr_left (fun j _ => ?_)
  simp only [Function.comp_apply, Nat.succ_eq_add_one]
  push_cast
  ring

theorem ascRun_pairwise (a : ℚ) (n : Nat) : List.Pairwise (· < ·) (ascRun a n) := by
  rw [ascRun, List.pairwise_map]
  refine (List.pairwise_lt_range n).imp ?_
  intro i j hij
  have : (i : ℚ) < j := by exact_mod_cast hij
  linarith

theorem mem_ascRun {x a : ℚ} {n : Nat} (h : x ∈ ascRun a n) :
    ∃ j : Nat, j < n ∧ x = a + j := by
  rw [ascRun] at h
  obtain ⟨j, hj, hx⟩ := List.mem_map.mp h
  exact ⟨j, List.mem_range.mp hj, hx.symm⟩

/-! ## Preservation of the tracker invariant -/

theorem speedOf_nonneg (oldRx newRx : Nat) : 0 ≤ speedOf oldRx newRx := by
  rw [speedOf]
  positivity

theorem speedOf_wrap {oldRx newRx : Nat} (h : newRx < oldRx) : speedOf oldRx newRx = 0 := by
  rw [speedOf, Nat.sub_eq_zero_of_le (Nat.le_of_lt h)]
  norm_num

theorem pushEntry_speed (c s : ℚ) (e : InterfaceData) : (pushEntry c s e).current_speed = s :=
  rfl

theorem pushEntry_entryInv {c s : ℚ} {e : InterfaceData} (h : entryInv c e) (hs : 0 ≤ s) :
    entryInv (c + 1) (pushEntry (c + 1) s e) := by
  obtain ⟨hpos, hle, hseq, hlast, hys⟩ := h
  have hlen : (e.history ++ [(c + 1, s)]).length = e.history.length + 1 := by simp
  by_cases hb : 300 < e.history.length + 1
  · -- the window is full: the head is evicted
    have hn300 : e.history.length = 300 := le_antisymm hle (by omega)
    have hhist : (pushEntry (c + 1) s e).history = (e.history ++ [(c + 1, s)]).drop 1 := by
      rw [pushEntry]
      simp only [hlen, hb, if_pos]
    have hL : ((e.history ++ [(c + 1, s)]).drop 1).length = 300 := by
      rw [List.length_drop, hlen, hn300]
    have hdrop : (e.history ++ [(c + 1, s)]).drop 1 = e.history.drop 1 ++ [(c + 1, s)] :=
      List.drop_append_of_le_length (by omega)
    refine ⟨by rw [hhist, hL]; norm_num, by rw [hhist, hL], ?_, ?_, ?_⟩
    · rw [hhist, hL, List.map_drop, List.map_append, hseq, hn300]
      have hdx : List.drop 1 (ascRun (c + 1 - ((300 : Nat) : ℚ)) 300
            ++ List.map Prod.fst [(c + 1, s)])
          = List.drop 1 (ascRun (c + 1 - ((300 : Nat) : ℚ)) 300)
            ++ List.map Prod.fst [(c + 1, s)] :=
        List.drop_append_of_le_length (by rw [ascRun_length]; norm_num)
      rw [hdx]
      have hd1 : List.drop 1 (ascRun (c + 1 - ((300 : Nat) : ℚ)) 300)
          = ascRun (c + 1 - ((300 : Nat) : ℚ) + 1) 299 := by
        have h0 := ascRun_drop_one (c + 1 - ((300 : Nat) : ℚ)) 299
        norm_num at h0
        norm_num [h0]
      rw [hd1]
      have h1 := ascRun_succ (c + 1 + 1 - ((300 : Nat) : ℚ)) 299
      rw [show (299 : Nat) + 1 = 300 from by norm_num] at h1
      rw [h1]
      congr 1
      · congr 1
        push_cast
        ring
      · simp only [List.map_cons, List.map_nil]
        congr 1
        push_cast
        ring
    · rw [hhist, pushEntry_speed, hdrop, List.getLast?_concat]
    · intro p hp
      rw [hhist] at hp
      have hp' : p ∈ e.history ++ [(c + 1, s)] := List.mem_of_mem_drop hp
      rcases List.mem_append.mp hp' with h | h
      · exact hys p h
      · rw [List.mem_singleton] at h
        subst h
        exact hs
  · -- still below the bound: plain append
    have hhist : (pushEntry (c + 1) s e).history = e.history ++ [(c + 1, s)] := by
      rw [pushEntry]
      simp only [hlen, hb, if_neg, not_false_iff]
    refine ⟨by rw [hhist, hlen]; omega, by rw [hhist, hlen]; omega, ?_, ?_, ?_⟩
    · rw [hhist, hlen, List.map_append, hseq, ascRun_succ]
      congr 1
      · congr 1
        push_cast
        ring
      · simp only [List.map_cons, List.map_nil]
        congr 1
        push_cast
        ring
    · rw [hhist, pushEntry_speed, List.getLast?_concat]
    · intro p hp
      rw [hhist] at hp
      rcases List.mem_append.mp hp with h | h
      · exact hys p h
      · rw [List.mem_singleton] at h
        subst h
        exact hs

theorem pushEntry_fresh_entryInv {c s : ℚ} {name : String} (hs : 0 ≤ s) :
    entryInv (c + 1) (pushEntry (c + 1) s (freshIface name)) := by
  have hhist : (pushEntry (c + 1) s (freshIface name)).history = [(c + 1, s)] := by
    rw [pushEntry, freshIface]
    simp
  refine ⟨by rw [hhist]; norm_num, by rw [hhist]; norm_num, ?_, ?_, ?_⟩
  · rw [hhist]
    simp only [List.map_cons, List.map_nil, List.length_cons, List.length_nil]
    rw [ascRun, show List.range (0 + 1) = [0] from rfl, List.map_cons, List.map_nil]
    congr 1
    push_cast
    ring
  · rw [hhist, pushEntry_speed]
    simp
  · intro p hp
    rw [hhist] at hp
    rw [List.mem_singleton] at hp
    subst hp
    exact hs

theorem update_metrics_interfaces (a : App) (act : List String) (ssid : String)
    (snap : Snapshot) :
    (update_metrics a act ssid snap).1.interfaces
      = (snap.foldl (fun acc p => updateOne (a.counter + 1) a.last_stats acc p.1 p.2)
          a.interfaces).filter (fun p => (alookup snap p.1).isSome) := rfl

theorem update_metrics_counter (a : App) (act : List String) (ssid : String)
    (snap : Snapshot) :
    (update_metrics a act ssid snap).1.counter = a.counter + 1 := rfl

theorem update_metrics_last_stats (a : App) (act : List String) (ssid : String)
    (snap : Snapshot) :
    (update_metrics a act ssid snap).1.last_stats = snap := rfl

theorem appInv_update {a : App} (h : appInv a) (act : List String) (ssid : String)
    {snap : Snapshot} (hnd : (snap.map Prod.fst).Nodup) :
    appInv (update_metrics a act ssid snap).1 := by
  obtain ⟨hkeys, hm⟩ := h
  rw [appInv, update_metrics_counter, update_metrics_last_stats, update_metrics_interfaces]
  refine ⟨keys_filter_nodup _ (keys_fold_nodup _ _ _ hkeys), ?_⟩
  intro name d hd
  rw [alookup_filterKeys _ (fun k => (alookup snap k).isSome)] at hd
  by_cases hin : (alookup snap name).isSome
  · rw [if_pos hin] at hd
    obtain ⟨stats, hstats⟩ := Option.isSome_iff_exists.mp hin
    have hmemsnap : (name, stats) ∈ snap := alookup_mem hstats
    by_cases hf : filteredName name
    · rw [alookup_fold_skip _ _ _ _ (Or.inl hf)] at hd
      exact absurd hf (by rw [(hm name d hd).1]; exact Bool.false_ne_true)
    · rcases hlast : alookup a.last_stats name with _ | old
      · rw [alookup_fold_skip _ _ _ _ (Or.inr hlast)] at hd
        have := (hm name d hd).2.1
        rw [hlast] at this
        exact absurd this (by simp)
      · rw [alookup_fold_push _ _ _ _ hnd hmemsnap (Bool.not_eq_true _ ▸ hf) hlast] at hd
        have hd' := Option.some.inj hd
        refine ⟨Bool.not_eq_true _ ▸ hf, by rw [hstats]; rfl, ?_⟩
        rcases hcur : alookup a.interfaces name with _ | e
        · rw [hcur] at hd'
          rw [← hd']
          exact pushEntry_fresh_entryInv (speedOf_nonneg _ _)
        · rw [hcur] at hd'
          rw [← hd']
          exact pushEntry_entryInv (hm name e hcur).2.2 (speedOf_nonneg _ _)
  · rw [if_neg hin] at hd
    exact absurd hd (by simp)

theorem appInv_initApp (vpns wifis : List String) (s0 : Snapshot) (act0 : List String)
    (ssid0 : String) : appInv (initApp vpns wifis s0 act0 ssid0) := by
  refine ⟨?_, ?_⟩
  · simp [initApp, update_active_states]
  · intro name d hd
    simp [initApp, update_active_states, alookup] at hd

theorem appInv_runTicks {a : App} (h : appInv a) {ins : List TickInput}
    (hnd : ∀ i ∈ ins, (i.snap.map Prod.fst).Nodup) : appInv (runTicks a ins) := by
  induction ins generalizing a with
  | nil => exact h
  | cons i rest ih =>
    rw [runTicks, List.foldl_cons]
    exact ih (appInv_update h _ _ (hnd i (List.mem_cons_self _ _)))
      (fun j hj => hnd j (List.mem_cons_of_mem _ hj))

/-! ## Lemmas about the renderer -/

theorem mem_insertByName {q p : String × InterfaceData} {l : List (String × InterfaceData)}
    (h : q ∈ insertByName p l) : q = p ∨ q ∈ l := by
  induction l with
  | nil => simpa [insertByName] using h
  | cons r rest ih =>
    rw [insertByName] at h
    by_cases hc : p.1 < r.1
    · rw [if_pos hc] at h
      rcases List.mem_cons.mp h with h | h
      · exact Or.inl h
      · exact Or.inr h
    · rw [if_neg hc] at h
      rcases List.mem_cons.mp h with h | h
      · exact Or.inr (h ▸ List.mem_cons_self _ _)
      · rcases ih h with h | h
        · exact Or.inl h
        · exact Or.inr (List.mem_cons_of_mem _ h)

theorem mem_sortByName {q : String × InterfaceData} {l : List (String × InterfaceData)}
    (h : q ∈ sortByName l) : q ∈ l := by
  induction l with
  | nil => rw [sortByName] at h; exact h
  | cons r rest ih =>
    rw [sortByName] at h
    rcases mem_insertByName h with h | h
    · exact h ▸ List.mem_cons_self _ _
    · exact List.mem_cons_of_mem _ (ih h)

theorem foldl_max_eq (l : List (ℚ × ℚ)) : ∀ acc : ℚ, 0 ≤ acc →
    l.foldl (fun m p => max m p.2) acc = max acc (listMaxQ (l.map Prod.snd)) := by
  induction l with
  | nil =>
    intro acc hacc
    simp [listMaxQ, max_eq_left hacc]
  | cons p t ih =>
    intro acc hacc
    rw [List.foldl_cons, ih (max acc p.2) (le_trans hacc (le_max_left _ _)), List.map_cons]
    rw [show listMaxQ (p.2 :: List.map Prod.snd t)
        = max p.2 (listMaxQ (List.map Prod.snd t)) from rfl]
    rw [max_assoc]

theorem graphMax_eq_max_listMaxQ (data : List (ℚ × ℚ)) :
    graphMax data = max 1 (listMaxQ (data.map Prod.snd)) := by
  rw [graphMax, foldl_max_eq data 1 (by norm_num)]
  rw [max_eq_left]
  exact le_max_left _ _

theorem windowPoints_eq_self {c : ℚ} {d : InterfaceData} (h : entryInv c d) :
    windowPoints c d.history = d.history := by
  obtain ⟨hpos, hle, hseq, -, -⟩ := h
  rw [windowPoints, List.filter_eq_self]
  intro p hp
  have hx : p.1 ∈ d.history.map Prod.fst := List.mem_map_of_mem Prod.fst hp
  rw [hseq] at hx
  obtain ⟨j, hj, hxe⟩ := mem_ascRun hx
  have hjq : (j : ℚ) ≤ ((d.history.length : ℚ)) - 1 := by
    have : (j : ℚ) + 1 ≤ (d.history.length : ℚ) := by exact_mod_cast hj
    linarith
  have hlq : ((d.history.length : ℚ)) ≤ 300 := by exact_mod_cast hle
  have h1 : c - 300 ≤ p.1 := by
    rw [hxe]
    have : (0 : ℚ) ≤ j := by positivity
    linarith
  have h2 : p.1 ≤ c := by
    rw [hxe]
    linarith
  simp [h1, h2]

theorem graphMax_eq_specBound {c : ℚ} {d : InterfaceData} (h : entryInv c d) :
    graphMax d.history = specBound c d.history := by
  rw [specBound, windowPoints_eq_self h, graphMax_eq_max_listMaxQ]

theorem ui_graph (a : App) (ips : List (String × String)) :
    (ui a ips).graph = graphChoice a ips := rfl

/-! ## The claims -/

theorem runTicks_appEth_interfaces :
    (runTicks appEth [tickEth]).interfaces = [("eth0", entryEth)] := by
  have h1 : filteredName "eth0" = false := by decide
  simp [runTicks, tickEth, appEth, initApp, update_metrics, update_active_states,
    updateOne, h1, alookup, insertIface, pushEntry, freshIface, entryEth,
    show colorOf "eth0" = Color.Green from by decide]
  norm_num [speedOf]

theorem runTicks_appEth_counter : (runTicks appEth [tickEth]).counter = 1 := by
  show (0 : ℚ) + 1 = 1
  norm_num

/-- C7: for every sequence of counter snapshots, every tracked interface
sample satisfies after each Throughput Tracker update: history length at
most 300, strictly increasing sequence numbers, and `current_speed` equal
to the second component of the last history entry. -/
theorem C7_tracker_invariants (vpns wifis : List String) (s0 : Snapshot)
    (act0 : List String) (ssid0 : String) (ins : List TickInput)
    (hnd : ∀ i ∈ ins, (i.snap.map Prod.fst).Nodup) (name : String) (d : InterfaceData)
    (hd : alookup (runTicks (initApp vpns wifis s0 act0 ssid0) ins).interfaces name
        = some d) :
    d.history.length ≤ 300 ∧
    (d.history.map Prod.fst).Pairwise (· < ·) ∧
    d.history.getLast?.map Prod.snd = some d.current_speed := by
  obtain ⟨-, hm⟩ := appInv_runTicks (appInv_initApp vpns wifis s0 act0 ssid0) hnd
  obtain ⟨hpos, hle, hseq, hlast, hys⟩ := (hm name d hd).2.2
  refine ⟨hle, ?_, ?_⟩
  · rw [hseq]
    exact ascRun_pairwise _ _
  · rw [hlast]
    rfl

/-- Witness for C7 at a concrete one-tick run. -/
theorem C7_tracker_invariants_witness :
    ((∀ i ∈ [tickEth], (i.snap.map Prod.fst).Nodup) ∧
      alookup (runTicks appEth [tickEth]).interfaces "eth0" = some entryEth) ∧
    (entryEth.history.length ≤ 300 ∧
      (entryEth.history.map Prod.fst).Pairwise (· < ·) ∧
      entryEth.history.getLast?.map Prod.snd = some entryEth.current_speed) := by
  have heval : alookup (runTicks appEth [tickEth]).interfaces "eth0" = some entryEth := by
    rw [runTicks_appEth_interfaces]
    decide
  exact ⟨⟨by decide, heval⟩,
    C7_tracker_invariants [] [] [("eth0", ⟨1000, 0⟩)] [] "" [tickEth] (by decide)
      "eth0" entryEth heval⟩

/-- C8: throughput computed from a pair of consecutive byte counters is
never negative, and a counter that decreased (wraparound/reset) yields
exactly 0. -/
theorem C8_throughput_nonneg (oldRx newRx : Nat) :
    0 ≤ speedOf oldRx newRx ∧ (newRx < oldRx → speedOf oldRx newRx = 0) :=
  ⟨speedOf_nonneg oldRx newRx, fun h => speedOf_wrap h⟩

/-- Witness for C8 at a decreasing counter pair. -/
theorem C8_throughput_nonneg_witness :
    (3 < 5) ∧ (0 ≤ speedOf 5 3 ∧ speedOf 5 3 = 0) :=
  ⟨by norm_num,
    ⟨(C8_throughput_nonneg 5 3).1, (C8_throughput_nonneg 5 3).2 (by norm_num)⟩⟩

theorem contains_true_iff (l : List String) (v : String) : l.contains v = true ↔ v ∈ l :=
  List.elem_iff

/-- C4: the poll diff emits exactly one `Disconnected` per vanished tunnel
and exactly one `Connected` per new tunnel, nothing for unchanged tunnels,
all disconnects before all connects; `{A,B} → {B,C}` yields exactly
`Disconnected A` then `Connected C`. -/
theorem C4_diff_events (prev new : List String) (h1 : prev.Nodup) (h2 : new.Nodup) :
    (∀ n, (connectionEvents prev new).count (.disconnected n)
        = if n ∈ prev ∧ n ∉ new then 1 else 0) ∧
    (∀ n, (connectionEvents prev new).count (.connected n)
        = if n ∈ new ∧ n ∉ prev then 1 else 0) ∧
    (∃ ds cs, connectionEvents prev new = ds ++ cs ∧
      (∀ e ∈ ds, ∃ n, e = ConnEvent.disconnected n) ∧
      (∀ e ∈ cs, ∃ n, e = ConnEvent.connected n)) ∧
    connectionEvents ["A", "B"] ["B", "C"] = [.disconnected "A", .connected "C"] := by
  have hinjd : Function.Injective ConnEvent.disconnected := fun x y h =>
    ConnEvent.disconnected.inj h
  have hinjc : Function.Injective ConnEvent.connected := fun x y h =>
    ConnEvent.connected.inj h
  have hcount : ∀ (l : List String) (excl : List String) (n : String), l.Nodup →
      (l.filter (fun v => !excl.contains v)).count n
        = if n ∈ l ∧ n ∉ excl then 1 else 0 := by
    intro l excl n hl
    by_cases hx : n ∈ excl
    · have hb : excl.contains n = true := (contains_true_iff _ _).mpr hx
      rw [if_neg (by tauto)]
      refine List.count_eq_zero_of_not_mem ?_
      intro hmem
      have := (List.mem_filter.mp hmem).2
      rw [hb] at this
      simp at this
    · have hb : excl.contains n = false := by
        rcases Bool.eq_false_or_eq_true (excl.contains n) with h | h
        · exact absurd ((contains_true_iff _ _).mp h) hx
        · exact h
      rw [List.count_filter (by rw [hb]; rfl)]
      by_cases hm : n ∈ l
      · rw [if_pos ⟨hm, hx⟩]
        exact List.count_eq_one_of_mem hl hm
      · rw [if_neg (by tauto)]
        exact List.count_eq_zero_of_not_mem hm
  refine ⟨?_, ?_, ?_, by decide⟩
  · intro n
    rw [connectionEvents, List.count_append]
    have hz : ((new.filter (fun v => !prev.contains v)).map ConnEvent.connected).count
        (ConnEvent.disconnected n) = 0 := by
      refine List.count_eq_zero_of_not_mem ?_
      intro hmem
      obtain ⟨m, -, he⟩ := List.mem_map.mp hmem
      exact ConnEvent.noConfusion he
    rw [hz, Nat.add_zero, List.count_map_of_injective _ _ hinjd, hcount _ _ _ h1]
  · intro n
    rw [connectionEvents, List.count_append]
    have hz : ((prev.filter (fun v => !new.contains v)).map ConnEvent.disconnected).count
        (ConnEvent.connected n) = 0 := by
      refine List.count_eq_zero_of_not_mem ?_
      intro hmem
      obtain ⟨m, -, he⟩ := List.mem_map.mp hmem
      exact ConnEvent.noConfusion he
    rw [hz, Nat.zero_add, List.count_map_of_injective _ _ hinjc, hcount _ _ _ h2]
  · refine ⟨_, _, rfl, ?_, ?_⟩
    · intro e he
      obtain ⟨m, -, he⟩ := List.mem_map.mp he
      exact ⟨m, he.symm⟩
    · intro e he
      obtain ⟨m, -, he⟩ := List.mem_map.mp he
      exact ⟨m, he.symm⟩

/-- Witness for C4 at the spec's `{A,B} → {B,C}` example. -/
theorem C4_diff_events_witness :
    (["A", "B"].Nodup ∧ ["B", "C"].Nodup) ∧
    (connectionEvents ["A", "B"] ["B", "C"]).count (.disconnected "A") = 1 ∧
    (connectionEvents ["A", "B"] ["B", "C"]).count (.connected "C") = 1 ∧
    (connectionEvents ["A", "B"] ["B", "C"]).count (.disconnected "B") = 0 ∧
    (connectionEvents ["A", "B"] ["B", "C"]).count (.connected "B") = 0 ∧
    connectionEvents ["A", "B"] ["B", "C"] = [.disconnected "A", .connected "C"] := by
  have h := C4_diff_events ["A", "B"] ["B", "C"] (by decide) (by decide)
  refine ⟨⟨by decide, by decide⟩, ?_, ?_, ?_, ?_, h.2.2.2⟩
  · rw [h.1 "A"]
    decide
  · rw [h.2.1 "C"]
    decide
  · rw [h.1 "B"]
    decide
  · rw [h.2.1 "B"]
    decide

/-- C10: while in secret-entry mode every character key — including `q`,
`r`, `x`, `j`, `k`, `g` — is appended to the secret buffer instead of
running its browse command; no key quits the loop and no key changes the
name lists. -/
theorem C10_secret_entry_captures_keys (a : App) (ext : ExternalInputs)
    (h : a.selection_mode = .PasswordInput) :
    (∀ c : Char, handleKey a (.char c) ext
        = .cont { a with password_input := a.password_input ++ [c] } []) ∧
    (∀ k a', handleKey a k ext ≠ .quit a') ∧
    (∀ k a' effs, handleKey a k ext = .cont a' effs →
      a'.vpn_names = a.vpn_names ∧ a'.wifi_ssids = a.wifi_ssids) := by
  refine ⟨?_, ?_, ?_⟩
  · intro c
    rw [handleKey, if_pos h]
    rfl
  · intro k a'
    cases k with
    | enter =>
      simp only [handleKey, h, if_true, ite_true, handlePassword]
      rcases resolveTarget a with _ | name
      · simp
      · by_cases hs : ext.spawnOk <;> simp [hs]
    | esc => simp [handleKey, h, handlePassword]
    | backspace => simp [handleKey, h, handlePassword]
    | tab => simp [handleKey, h, handlePassword]
    | down => simp [handleKey, h, handlePassword]
    | up => simp [handleKey, h, handlePassword]
    | char c => simp [handleKey, h, handlePassword]
    | other => simp [handleKey, h, handlePassword]
  · intro k a' effs heq
    cases k with
    | enter =>
      rcases hres : resolveTarget a with _ | name
      · simp [handleKey, h, handlePassword, hres] at heq
        obtain ⟨h1, -⟩ := heq
        subst h1
        exact ⟨rfl, rfl⟩
      · by_cases hs : ext.spawnOk
        · simp [handleKey, h, handlePassword, hres, hs] at heq
          obtain ⟨h1, -⟩ := heq
          subst h1
          exact ⟨rfl, rfl⟩
        · simp [handleKey, h, handlePassword, hres, hs] at heq
    | esc =>
      simp [handleKey, h, handlePassword] at heq
      obtain ⟨h1, -⟩ := heq
      subst h1
      exact ⟨rfl, rfl⟩
    | backspace =>
      simp [handleKey, h, handlePassword] at heq
      obtain ⟨h1, -⟩ := heq
      subst h1
      exact ⟨rfl, rfl⟩
    | tab =>
      simp [handleKey, h, handlePassword] at heq
      obtain ⟨h1, -⟩ := heq
      subst h1
      exact ⟨rfl, rfl⟩
    | down =>
      simp [handleKey, h, handlePassword] at heq
      obtain ⟨h1, -⟩ := heq
      subst h1
      exact ⟨rfl, rfl⟩
    | up =>
      simp [handleKey, h, handlePassword] at heq
      obtain ⟨h1, -⟩ := heq
      subst h1
      exact ⟨rfl, rfl⟩
    | char c =>
      simp [handleKey, h, handlePassword] at heq
      obtain ⟨h1, -⟩ := heq
      subst h1
      exact ⟨rfl, rfl⟩
    | other =>
      simp [handleKey, h, handlePassword] at heq
      obtain ⟨h1, -⟩ := heq
      subst h1
      exact ⟨rfl, rfl⟩

/-- Witness for C10: typing `q` in secret entry appends to the buffer. -/
theorem C10_secret_entry_captures_keys_witness :
    appHomePw.selection_mode = SelectionMode.PasswordInput ∧
    handleKey appHomePw (.char 'q') extOk
      = .cont { appHomePw with password_input := ['q'] } [] := by
  refine ⟨rfl, ?_⟩
  have h := (C10_secret_entry_captures_keys appHomePw extOk rfl).1 'q'
  exact h

/-- C9: for every graph rendered from a reachable engine state, the vertical
bound equals `max(1, maximum throughput among the history points inside the
visible window [latest-300, latest])`, and the x-window is exactly
`[counter-300, counter]`. -/
theorem C9_graph_bound (vpns wifis : List String) (s0 : Snapshot) (act0 : List String)
    (ssid0 : String) (ins : List TickInput)
    (hnd : ∀ i ∈ ins, (i.snap.map Prod.fst).Nodup)
    (ips : List (String × String)) (nm : String) (sp : ℚ) (data : List (ℚ × ℚ))
    (col : Color) (mv x0 x1 : ℚ)
    (hg : (ui (runTicks (initApp vpns wifis s0 act0 ssid0) ins) ips).graph
        = GraphView.braille nm sp data col mv x0 x1) :
    mv = specBound (runTicks (initApp vpns wifis s0 act0 ssid0) ins).counter data ∧
    x0 = (runTicks (initApp vpns wifis s0 act0 ssid0) ins).counter - 300 ∧
    x1 = (runTicks (initApp vpns wifis s0 act0 ssid0) ins).counter := by
  obtain ⟨hkeys, hm⟩ := appInv_runTicks (appInv_initApp vpns wifis s0 act0 ssid0) hnd
  rw [ui_graph, graphChoice] at hg
  by_cases hc : (runTicks (initApp vpns wifis s0 act0 ssid0) ins).graph_index % 2 ≠ 0 ∧
      tunnelActive (runTicks (initApp vpns wifis s0 act0 ssid0) ins) ips ≠ []
  · rw [if_pos hc] at hg
    have hlen : 0 < (tunnelActive (runTicks (initApp vpns wifis s0 act0 ssid0) ins) ips).length :=
      List.length_pos.mpr hc.2
    have hpm : tunnelPick (runTicks (initApp vpns wifis s0 act0 ssid0) ins) ips
        ∈ tunnelActive (runTicks (initApp vpns wifis s0 act0 ssid0) ins) ips := by
      rw [tunnelPick, List.getD_eq_getElem?_getD,
        List.getElem?_eq_getElem (Nat.mod_lt _ hlen)]
      exact List.getElem_mem _
    have hmem2 := List.mem_filter.mp (mem_sortByName hpm)
    have hmem3 := (List.mem_filter.mp hmem2.1).1
    have hlk : alookup (runTicks (initApp vpns wifis s0 act0 ssid0) ins).interfaces
        (tunnelPick (runTicks (initApp vpns wifis s0 act0 ssid0) ins) ips).1
        = some (tunnelPick (runTicks (initApp vpns wifis s0 act0 ssid0) ins) ips).2 :=
      alookup_eq_of_mem hkeys hmem3
    have hinv := (hm _ _ hlk).2.2
    injection hg with e1 e2 e3 e4 e5 e6 e7
    subst e1
    subst e2
    subst e3
    subst e4
    subst e5
    subst e6
    subst e7
    exact ⟨(graphMax_eq_specBound hinv).symm ▸ rfl, rfl, rfl⟩
  · rw [if_neg hc] at hg
    rcases hphys : physActive (runTicks (initApp vpns wifis s0 act0 ssid0) ins) ips
      with _ | ⟨p, rest⟩
    · rw [hphys] at hg
      exact absurd hg (by simp)
    · rw [hphys] at hg
      simp only [] at hg
      have hpm : p ∈ physActive (runTicks (initApp vpns wifis s0 act0 ssid0) ins) ips := by
        rw [hphys]
        exact List.mem_cons_self _ _
      have hmem2 := List.mem_filter.mp (mem_sortByName hpm)
      have hmem3 := (List.mem_filter.mp hmem2.1).1
      have hlk : alookup (runTicks (initApp vpns wifis s0 act0 ssid0) ins).interfaces p.1
          = some p.2 := alookup_eq_of_mem hkeys hmem3
      have hinv := (hm _ _ hlk).2.2
      injection hg with e1 e2 e3 e4 e5 e6 e7
      subst e1
      subst e2
      subst e3
      subst e4
      subst e5
      subst e6
      subst e7
      exact ⟨(graphMax_eq_specBound hinv).symm ▸ rfl, rfl, rfl⟩

/-- Witness for C9 at a concrete one-tick run with one active address. -/
theorem C9_graph_bound_witness :
    ((∀ i ∈ [tickEth], (i.snap.map Prod.fst).Nodup) ∧
      (ui (runTicks appEth [tickEth]) [("eth0", "10.0.0.1")]).graph
        = GraphView.braille "eth0" entryEth.current_speed entryEth.history entryEth.color
            (graphMax entryEth.history) ((runTicks appEth [tickEth]).counter - 300)
            (runTicks appEth [tickEth]).counter) ∧
    (graphMax entryEth.history
        = specBound (runTicks appEth [tickEth]).counter entryEth.history ∧
      (runTicks appEth [tickEth]).counter - 300
        = (runTicks appEth [tickEth]).counter - 300 ∧
      (runTicks appEth [tickEth]).counter = (runTicks appEth [tickEth]).counter) := by
  have hgi : (runTicks appEth [tickEth]).graph_index = 0 := rfl
  have hphys : physActive (runTicks appEth [tickEth]) [("eth0", "10.0.0.1")]
      = [("eth0", entryEth)] := by
    rw [physActive, withIp, runTicks_appEth_interfaces]
    decide
  have hEval : (ui (runTicks appEth [tickEth]) [("eth0", "10.0.0.1")]).graph
      = GraphView.braille "eth0" entryEth.current_speed entryEth.history entryEth.color
          (graphMax entryEth.history) ((runTicks appEth [tickEth]).counter - 300)
          (runTicks appEth [tickEth]).counter := by
    rw [ui_graph, graphChoice, hgi]
    rw [if_neg (by simp)]
    rw [hphys]
  exact ⟨⟨by decide, hEval⟩,
    C9_graph_bound [] [] [("eth0", ⟨1000, 0⟩)] [] "" [tickEth] (by decide)
      [("eth0", "10.0.0.1")] "eth0" entryEth.current_speed entryEth.history entryEth.color
      (graphMax entryEth.history) ((runTicks appEth [tickEth]).counter - 300)
      (runTicks appEth [tickEth]).counter hEval⟩

/-- C1 counterexample: an rx delta of 655360 bytes in one tick yields a
stored throughput of 5.0, not the claimed
`655360 * 8 / (0.5 * 1024 * 1024) = 10.0`: the code never divides by the
tick period. -/
theorem C1_counterexample :
    (alookup (update_metrics appEth [] "" [("eth0", ⟨1000 + 655360, 0⟩)]).1.interfaces
        "eth0").map InterfaceData.current_speed = some 5 ∧
    (5 : ℚ) ≠ 655360 * 8 / ((1 / 2) * (1024 * 1024)) := by
  constructor
  · have h1 : filteredName "eth0" = false := by decide
    simp [appEth, initApp, update_metrics, update_active_states, updateOne, h1,
      alookup, insertIface, pushEntry, freshIface]
    norm_num [speedOf]
  · norm_num

/-- C1 amended: for every interface present in both the previous and the
current snapshot, the throughput appended by the update equals
`delta_rx * 8 / (1024 * 1024)` — with no division by the tick period (so
the 655360-byte example yields 5.0 Mb shown per 0.5 s tick, not 10.0). -/
theorem C1_amended_throughput_formula (a : App) (act : List String) (ssid : String)
    (snap : Snapshot) (name : String) (old stats : NetStats)
    (hnd : (snap.map Prod.fst).Nodup) (hf : filteredName name = false)
    (hold : alookup a.last_stats name = some old) (hmem : (name, stats) ∈ snap) :
    (alookup (update_metrics a act ssid snap).1.interfaces name).map
        InterfaceData.current_speed
      = some (((stats.rx - old.rx : Nat) : ℚ) * 8 / (1024 * 1024)) := by
  rw [update_metrics_interfaces, alookup_filterKeys _ (fun k => (alookup snap k).isSome)]
  have hs : alookup snap name = some stats := alookup_eq_of_mem hnd hmem
  rw [if_pos (by rw [hs]; rfl)]
  rw [alookup_fold_push _ _ _ _ hnd hmem hf hold]
  rw [Option.map_some', pushEntry_speed, speedOf]

/-- Witness for C1's amended statement at the spec's own example. -/
theorem C1_amended_throughput_formula_witness :
    (((([("eth0", (⟨1000 + 655360, 0⟩ : NetStats))] : Snapshot).map Prod.fst).Nodup) ∧
      filteredName "eth0" = false ∧
      alookup appEth.last_stats "eth0" = some ⟨1000, 0⟩ ∧
      ("eth0", (⟨1000 + 655360, 0⟩ : NetStats))
        ∈ ([("eth0", (⟨1000 + 655360, 0⟩ : NetStats))] : Snapshot)) ∧
    (alookup (update_metrics appEth [] "" [("eth0", ⟨1000 + 655360, 0⟩)]).1.interfaces
        "eth0").map InterfaceData.current_speed
      = some ((((1000 + 655360 : Nat) - 1000 : Nat) : ℚ) * 8 / (1024 * 1024)) :=
  ⟨⟨by decide, by decide, by decide, by decide⟩,
    C1_amended_throughput_formula appEth [] "" [("eth0", ⟨1000 + 655360, 0⟩)] "eth0"
      ⟨1000, 0⟩ ⟨1000 + 655360, 0⟩ (by decide) (by decide) (by decide) (by decide)⟩

/-- C2 counterexample: entering secret entry, typing `a` and cancelling
with Esc returns to VPN mode but leaves `'a'` in the secret buffer — the
buffer is not cleared on leaving. -/
theorem C2_counterexample :
    handleKey appHome .enter extOk = .cont appHomePw [] ∧
    handleKey appHomePw (.char 'a') extOk = .cont appHomePwA [] ∧
    handleKey appHomePwA .esc extOk
      = .cont { appHomePwA with selection_mode := SelectionMode.VPN } [] ∧
    ({ appHomePwA with selection_mode := SelectionMode.VPN } : App).password_input = ['a'] ∧
    (['a'] : List Char) ≠ [] := by decide

/-- C2 amended: cancel (Esc) always returns to the originating mode with no
spawned effect and the buffer unchanged; a completed commit (Enter) also
returns to the originating mode with the buffer unchanged; the buffer is
cleared on *entry* to secret entry, not on exit. -/
theorem C2_amended_secret_exit (a : App) (ext : ExternalInputs)
    (h : a.selection_mode = SelectionMode.PasswordInput) :
    (handleKey a .esc ext = .cont { a with selection_mode := a.previous_mode } []) ∧
    (∀ a' effs, handleKey a .enter ext = .cont a' effs →
      a'.selection_mode = a.previous_mode ∧ a'.password_input = a.password_input) ∧
    (∀ b : App, b.selection_mode ≠ SelectionMode.PasswordInput → ∀ b' effs,
      handleKey b .enter ext = .cont b' effs →
      b'.selection_mode = SelectionMode.PasswordInput → b'.password_input = []) := by
  refine ⟨?_, ?_, ?_⟩
  · rw [handleKey, if_pos h]
    rfl
  · intro a' effs heq
    rcases hres : resolveTarget a with _ | name
    · simp [handleKey, h, handlePassword, hres] at heq
      obtain ⟨h1, -⟩ := heq
      subst h1
      exact ⟨rfl, rfl⟩
    · by_cases hs : ext.spawnOk
      · simp [handleKey, h, handlePassword, hres, hs] at heq
        obtain ⟨h1, -⟩ := heq
        subst h1
        exact ⟨rfl, rfl⟩
      · simp [handleKey, h, handlePassword, hres, hs] at heq
  · intro b hb b' effs heq hmode
    rw [handleKey, if_neg hb] at heq
    simp only [handleBrowse] at heq
    by_cases hlen : 0 < (if b.selection_mode = SelectionMode.VPN then b.vpn_names.length
        else b.wifi_ssids.length)
    · rw [if_pos hlen] at heq
      injection heq with h1 h2
      subst h1
      rfl
    · rw [if_neg hlen] at heq
      injection heq with h1 h2
      subst h1
      exact absurd hmode hb

/-- Witness for C2's amended statement. -/
theorem C2_amended_secret_exit_witness :
    appHomePwA.selection_mode = SelectionMode.PasswordInput ∧
    handleKey appHomePwA .esc extOk
      = .cont { appHomePwA with selection_mode := appHomePwA.previous_mode } [] :=
  ⟨rfl, (C2_amended_secret_exit appHomePwA extOk rfl).1⟩

/-- C3 counterexample: committing a secret with a resolvable target when
spawning the connect command fails propagates the error out of `main`
(the `?` on `spawn`) — the commit is not failure-free. -/
theorem C3_counterexample :
    handleKey appHome .enter extOk = .cont appHomePw [] ∧
    resolveTarget appHomePw = some "home" ∧
    handleKey appHomePw .enter extFail = .fatal := by decide

/-- C3 amended: the child's outcome is never observed (commit succeeds for
every state once the spawn succeeds, and an unresolvable target is dropped
silently), but a *spawn* failure of the connect command is propagated by
`?` and terminates the main loop. -/
theorem C3_amended_commit_spawn (a : App) (ext : ExternalInputs)
    (h : a.selection_mode = SelectionMode.PasswordInput) :
    (ext.spawnOk = true → ∃ a' effs, handleKey a .enter ext = .cont a' effs) ∧
    (resolveTarget a = none → handleKey a .enter ext
        = .cont { a with selection_mode := a.previous_mode } []) ∧
    (∀ name, ext.spawnOk = false → resolveTarget a = some name →
      handleKey a .enter ext = .fatal) := by
  refine ⟨?_, ?_, ?_⟩
  · intro hs
    rcases hres : resolveTarget a with _ | name
    · exact ⟨{ a with selection_mode := a.previous_mode }, [],
        by simp [handleKey, h, handlePassword, hres]⟩
    · exact ⟨{ a with selection_mode := a.previous_mode },
        [if a.previous_mode = SelectionMode.VPN then .connectVPN name a.password_input
         else .connectWifi name a.password_input],
        by simp [handleKey, h, handlePassword, hres, hs]⟩
  · intro hres
    simp [handleKey, h, handlePassword, hres]
  · intro name hs hres
    simp [handleKey, h, handlePassword, hres, hs]

/-- Witness for C3's amended statement. -/
theorem C3_amended_commit_spawn_witness :
    (appHomePw.selection_mode = SelectionMode.PasswordInput ∧ extFail.spawnOk = false ∧
      resolveTarget appHomePw = some "home") ∧
    handleKey appHomePw .enter extFail = .fatal :=
  ⟨⟨rfl, rfl, by decide⟩,
    (C3_amended_commit_spawn appHomePw extFail rfl).2.2 "home" rfl (by decide)⟩

/-- C5 counterexample: two renders from the *same* engine state but
different outputs of the external `ip` command (read during rendering)
produce different frames — the renderer is not a pure function of the
engine state alone. -/
theorem C5_counterexample :
    ui appHome [] ≠ ui appHome [("eth0", "10.0.0.1")] := by decide

/-- C5 amended: the renderer is a pure, total function of the engine state
*and* the address-source snapshot read during rendering: equal state and
equal address output give equal frames, and absence of addresses renders
the placeholder, never an error. -/
theorem C5_amended_renderer (a1 a2 : App) (ips1 ips2 : List (String × String))
    (h1 : a1 = a2) (h2 : ips1 = ips2) :
    ui a1 ips1 = ui a2 ips2 ∧ (ips1 = [] → (ui a1 ips1).graph = .placeholder) := by
  subst h1
  subst h2
  refine ⟨rfl, ?_⟩
  intro h
  subst h
  rw [ui_graph, graphChoice]
  have hwip : withIp a1 [] = [] := by
    rw [withIp]
    simp
  have htun : tunnelActive a1 [] = [] := by
    rw [tunnelActive, hwip]
    simp [sortByName]
  have hphys : physActive a1 [] = [] := by
    rw [physActive, hwip]
    simp [sortByName]
  rw [if_neg (by simp [htun])]
  rw [hphys]

/-- Witness for C5's amended statement. -/
theorem C5_amended_renderer_witness :
    (appHome = appHome ∧ ([] : List (String × String)) = []) ∧
    (ui appHome [] = ui appHome [] ∧ (ui appHome []).graph = .placeholder) :=
  ⟨⟨rfl, rfl⟩, ⟨(C5_amended_renderer appHome appHome [] [] rfl rfl).1,
    (C5_amended_renderer appHome appHome [] [] rfl rfl).2 rfl⟩⟩

/-- C6 counterexample: CursorDown to index 1 with two VPNs, then Refresh
shrinking the list to one entry, leaves the cursor at 1 — out of bounds of
the non-empty list: the cursor is not re-clamped on refresh. -/
theorem C6_counterexample :
    handleKey appAB .down extOk = .cont appAB1 [] ∧
    handleKey appAB1 (.char 'r') extShrink = .cont appAB1R [] ∧
    appAB1R.cursor = some 1 ∧ appAB1R.vpn_names.length = 1 ∧
    appAB1R.vpn_names ≠ [] ∧ ¬(1 < appAB1R.vpn_names.length) := by decide

/-- C6 amended: the cursor is reset to 0 on mode switch (Tab) but *not* on
external refresh — Refresh replaces both lists and leaves the cursor
untouched (it may then be out of bounds); navigation from a valid or empty
selection keeps the cursor in `[0, len)`. -/
theorem C6_amended_cursor (a : App) (ext : ExternalInputs)
    (h : a.selection_mode ≠ SelectionMode.PasswordInput) :
    handleKey a .tab ext
      = .cont { a with
          selection_mode :=
            if a.selection_mode = SelectionMode.VPN then SelectionMode.WiFi
            else SelectionMode.VPN
          cursor := some 0 } [] ∧
    handleKey a (.char 'r') ext
      = .cont { a with vpn_names := ext.vpnList, wifi_ssids := ext.wifiList } [] ∧
    (∀ len cur j, 0 < len → navDown len cur = some j → j < len) ∧
    (∀ len i j, 0 < len → i < len → navUp len (some i) = some j → j < len) ∧
    (∀ len j, 0 < len → navUp len none = some j → j < len) := by
  refine ⟨?_, ?_, ?_, ?_, ?_⟩
  · rw [handleKey, if_neg h]
    rfl
  · rw [handleKey, if_neg h]
    rfl
  · intro len cur j hlen hnav
    rw [navDown.eq_def, if_pos hlen] at hnav
    rcases cur with _ | i
    · simp at hnav
      omega
    · simp only [Option.some.injEq] at hnav
      by_cases hc : len - 1 ≤ i
      · rw [if_pos hc] at hnav
        omega
      · rw [if_neg hc] at hnav
        omega
  · intro len i j hlen hi hnav
    rw [navUp.eq_def, if_pos hlen] at hnav
    simp only [Option.some.injEq] at hnav
    by_cases hc : i = 0
    · rw [if_pos hc] at hnav
      omega
    · rw [if_neg hc] at hnav
      omega
  · intro len j hlen hnav
    rw [navUp.eq_def, if_pos hlen] at hnav
    simp at hnav
    omega

/-- Witness for C6's amended statement: refresh keeps the cursor. -/
theorem C6_amended_cursor_witness :
    appAB1.selection_mode ≠ SelectionMode.PasswordInput ∧
    handleKey appAB1 (.char 'r') extShrink
      = .cont { appAB1 with
          vpn_names := extShrink.vpnList
          wifi_ssids := extShrink.wifiList } [] :=
  ⟨by decide, (C6_amended_cursor appAB1 extShrink (by decide)).2.1⟩

end DashNet
